import Mathlib

/-
Verification of the optiblocks change-propagation protocol
(src/optiblocks/tree/parameters.py and tree.py).

The development shallowly embeds the propose/commit protocol of the
parameter tree.  Python values are embedded as the inductive `Value`;
a pydantic model instance is embedded as its field dictionary
(`ModelState`), and mutation of the live instance is made explicit by
threading the state and recording every write performed on it
(`Write`).  Change functions, which in Python mutate their argument in
place and may raise, are embedded as `Value → Option Value` applied to
the deep copy the boundary takes, with `none` standing for a raised
exception.
-/

set_option autoImplicit false

namespace Optiblocks

/-- Embedded Python values: the shapes the tree builder dispatches on
(primitives, lists, dictionaries).  Floats are embedded as rationals:
the protocol only moves float values around and compares them against
schema bounds, it never performs float arithmetic. -/
inductive Value where
  | vFloat (q : ℚ)
  | vInt (n : ℤ)
  | vBool (b : Bool)
  | vStr (s : String)
  | vList (xs : List Value)
  | vDict (entries : List (String × Value))


/-- Python dictionary lookup `d[k]` on an association list (first match;
Python dictionaries hold each key once). -/
def lookupField : List (String × Value) → String → Option Value
  | [], _ => none
  | (k, v) :: rest, n => if k = n then some v else lookupField rest n

/-- Python dictionary assignment `d[k] = v`: replaces the first entry with
key `k`, appends when the key is absent. -/
def setField : List (String × Value) → String → Value → List (String × Value)
  | [], k, v => [(k, v)]
  | (k1, v1) :: rest, k, v =>
    if k1 = k then (k, v) :: rest else (k1, v1) :: setField rest k v

/-- Declared field types of the sample schemas the tree handles: plain
primitives, `confloat` with optional `gt` and `lt` bounds, lists of
floats and string-keyed dictionaries of floats. -/
inductive FieldType where
  | fFloat
  | fConFloat (gt : Option ℚ) (lt : Option ℚ)
  | fInt
  | fBool
  | fStr
  | fListFloat
  | fDictFloat

/-- One float entry of a candidate list or dictionary value; pydantic
accepts an int where a float is declared and keeps a float unchanged. -/
def parseFloat : Value → Option Value
  | .vFloat q => some (.vFloat q)
  | .vInt n => some (.vFloat (mkRat n 1))
  | _ => none

/-- Modelled from the spec: the validator contract of section 6,
`validate(schema, candidateFieldValues) -> acceptedValues | ValidationError`
(the schema engine, pydantic, is an external collaborator outside src/).
Per-field parsing: a value is accepted when it has the declared shape
(with the int-to-float coercion) and, for `confloat`, lies inside the
declared `gt`/`lt` bounds taken from the FieldDescriptor. -/
def parseValue : FieldType → Value → Option Value
  | .fFloat, v => parseFloat v
  | .fConFloat gt lt, v =>
    match parseFloat v with
    | some (.vFloat q) =>
      if (gt.all fun b => b < q) && (lt.all fun b => q < b) then
        some (.vFloat q)
      else none
    | _ => none
  | .fInt, .vInt n => some (.vInt n)
  | .fBool, .vBool b => some (.vBool b)
  | .fStr, .vStr s => some (.vStr s)
  | .fListFloat, .vList xs => (xs.mapM parseFloat).map .vList
  | .fDictFloat, .vDict es =>
    (es.mapM fun p => (parseFloat p.2).map fun v => (p.1, v)).map .vDict
  | _, _ => none

/-- A record schema: the declared fields in declaration order. -/
def Schema := List (String × FieldType)

/-- Modelled from the spec: `validate_model(model.__class__, new_dict)` of
pydantic (external collaborator, section 6): parses every declared field
of the candidate dictionary; `none` is a ValidationError, otherwise the
accepted values are returned in schema order. -/
def validate_model : Schema → List (String × Value) →
    Option (List (String × Value))
  | [], _ => some []
  | (n, ft) :: rest, d => do
    let v ← lookupField d n
    let pv ← parseValue ft v
    let vs ← validate_model rest d
    pure ((n, pv) :: vs)

/-- The observable state of a live pydantic model instance: its field
dictionary (`model.__dict__`, what `model.dict()` serializes). -/
structure ModelState where
  fields : List (String × Value)

/-- A write performed on the live model instance. -/
inductive Write where
  /-- `object.__setattr__(model, "__dict__", values)`: full replacement of
  the field dictionary inside `check_and_set_options`. -/
  | setDict (values : List (String × Value))
  /-- `setattr(model, name, v)`: single field assignment. -/
  | setAttr (name : String) (v : Value)

/-- Exceptions of the embedded protocol. -/
inductive PyErr where
  | validationError
  | attributeError
  | runtimeError
  | interpretationError

/-- A pending edit: `check_and_set_options` and the boundary methods apply
it to a deep copy of the current field value, so it is a pure transform;
`none` models the exception Python raises inside the change function. -/
def ChangeFun := Value → Option Value

/-- `check_and_set_options(model, new_dict)` from parameters.py: validates
`new_dict` against the model class; a validation error is raised before
anything is written, otherwise the whole `__dict__` of the model is
replaced by the validated values (the `__fields_set__` write is not an
observable field value and is omitted). -/
def check_and_set_options (schema : Schema) (m : ModelState)
    (d : List (String × Value)) :
    Option PyErr × ModelState × List Write :=
  match validate_model schema d with
  | none => (some .validationError, m, [])
  | some values => (none, ⟨values⟩, [.setDict values])

/-- `ModelGroupParameter.handle_change_fun(param, child, fun)`, the commit
path: reads the current value of the field named by the child, applies
the change function to a deep copy of it, builds the candidate full
dictionary, runs `check_and_set_options` and then assigns the new value
to the single field with `setattr`; every exception is re-raised. -/
def handle_change_fun (schema : Schema) (m : ModelState) (fieldName : String)
    (f : ChangeFun) : Option PyErr × ModelState × List Write :=
  match lookupField m.fields fieldName with
  | none => (some .attributeError, m, [])
  | some fieldValue =>
    match f fieldValue with
    | none => (some .runtimeError, m, [])
    | some newValue =>
      let d := setField m.fields fieldName newValue
      match check_and_set_options schema m d with
      | (some e, m1, w) => (some e, m1, w)
      | (none, m1, w) =>
        (none, ⟨setField m1.fields fieldName newValue⟩,
          w ++ [.setAttr fieldName newValue])

/-- `ModelGroupParameter.propose_change(param, child, fun)`, the dry-run
path: identical lookup, deep copy, change-function application and
`check_and_set_options` call, but no trailing `setattr`; exceptions are
caught and returned instead of raised (`none` in the first component is
the `True` of the source). -/
def propose_change (schema : Schema) (m : ModelState) (fieldName : String)
    (f : ChangeFun) : Option PyErr × ModelState × List Write :=
  match lookupField m.fields fieldName with
  | none => (some .attributeError, m, [])
  | some fieldValue =>
    match f fieldValue with
    | none => (some .runtimeError, m, [])
    | some newValue =>
      let d := setField m.fields fieldName newValue
      match check_and_set_options schema m d with
      | (some e, m1, w) => (some e, m1, w)
      | (none, m1, w) => (none, m1, w)

/-- The change function a leaf originates in `handle_self_change` and
`propose_self_change`: `def change_fun(x): return data`. -/
def constChangeFun (data : Value) : ChangeFun := fun _ => some data

/-- The change function `ListFieldParameter.handle_change_fun` composes,
with `idx = self.children().index(child)` resolved at call time:
`def change_fun(x): x[idx] = fun(x[idx]); return x`.  `none` models the
TypeError or IndexError Python raises when `x` is not a list or the
index is out of range; Python evaluates `fun(x[idx])` before assigning,
so a raising inner function leaves nothing assigned. -/
def listField_handle_compose (idx : ℕ) (f : ChangeFun) : ChangeFun := fun x =>
  match x with
  | .vList xs =>
    if h : idx < xs.length then
      (f (xs.get ⟨idx, h⟩)).map fun v => .vList (xs.set idx v)
    else none
  | _ => none

/-- The change function `ListFieldParameter.propose_change` composes:
textually the same closure as the commit path (there is no copy and no
flag distinguishing the two). -/
def listField_propose_compose (idx : ℕ) (f : ChangeFun) : ChangeFun := fun x =>
  match x with
  | .vList xs =>
    if h : idx < xs.length then
      (f (xs.get ⟨idx, h⟩)).map fun v => .vList (xs.set idx v)
    else none
  | _ => none

/-- The change function `DictFieldParameter.handle_change_fun` composes,
with `idx = self.children().index(child)` resolved at call time:
`def change_fun(x): keys = list(x.keys()); key = keys[idx]; return fun(x[key])`.
It returns the transformed element itself; the result is never written
back into `x`. -/
def dictField_handle_compose (idx : ℕ) (f : ChangeFun) : ChangeFun := fun x =>
  match x with
  | .vDict es =>
    if h : idx < es.length then
      match lookupField es (es.get ⟨idx, h⟩).1 with
      | some v => f v
      | none => none
    else none
  | _ => none

/-- The change function `DictFieldParameter.propose_change` composes:
`key = param.name()` (the cached name of the originating parameter, not
the structural index of the child) and
`def change_fun(x): return fun(x[key])`; `none` models the KeyError when
the cached name is not a key of the live dictionary. -/
def dictField_propose_compose (key : String) (f : ChangeFun) : ChangeFun := fun x =>
  match x with
  | .vDict es =>
    match lookupField es key with
    | some v => f v
    | none => none
  | _ => none

/-- `ListFieldParameter.handle_change_fun` forwards its composed change
function to its parent; in a built tree the parent of a list field group
is the model group owning the field. -/
def listField_handle_change_fun (schema : Schema) (m : ModelState)
    (fieldName : String) (childIdx : ℕ) (f : ChangeFun) :
    Option PyErr × ModelState × List Write :=
  handle_change_fun schema m fieldName (listField_handle_compose childIdx f)

/-- `ListFieldParameter.propose_change` forwards its composed change
function to the parent model group. -/
def listField_propose_change (schema : Schema) (m : ModelState)
    (fieldName : String) (childIdx : ℕ) (f : ChangeFun) :
    Option PyErr × ModelState × List Write :=
  propose_change schema m fieldName (listField_propose_compose childIdx f)

/-- `DictFieldParameter.handle_change_fun` forwards its composed change
function to the parent model group. -/
def dictField_handle_change_fun (schema : Schema) (m : ModelState)
    (fieldName : String) (childIdx : ℕ) (f : ChangeFun) :
    Option PyErr × ModelState × List Write :=
  handle_change_fun schema m fieldName (dictField_handle_compose childIdx f)

/-- `DictFieldParameter.propose_change` forwards its composed change
function to the parent model group, keyed by the cached parameter name. -/
def dictField_propose_change (schema : Schema) (m : ModelState)
    (fieldName : String) (key : String) (f : ChangeFun) :
    Option PyErr × ModelState × List Write :=
  propose_change schema m fieldName (dictField_propose_compose key f)

/-- The change function reaching the boundary from a leaf sitting below a
chain of nested list containers: each level wraps the inner function the
way `ListFieldParameter.handle_change_fun` and `ListParameter` do (both
compose the identical closure). -/
def composeListPath : List ℕ → ChangeFun → ChangeFun
  | [], f => f
  | i :: rest, f => listField_handle_compose i (composeListPath rest f)

/-- Modelled from the spec: `getFieldValue(child)` of section 4.2, called
`get_model_value` in the tests but absent from src/: the boundary
returns the live current value of the field owned by the child, looked
up by the structural index of the child among the children of the model
group (which mirror the fields in declaration order). -/
def get_model_value (m : ModelState) (childIdx : ℕ) : Option Value :=
  (m.fields[childIdx]?).map fun p => p.2

/-- Modelled from the spec: the container lookup of section 4.3,
`getFieldValue(child)` resolves the value of the parent and indexes into
it by the current position of the child; iterated along a chain of list
containers down to a leaf. -/
def get_value_path (v : Value) : List ℕ → Option Value
  | [] => some v
  | i :: rest =>
    match v with
    | .vList xs =>
      match xs[i]? with
      | some w => get_value_path w rest
      | none => none
    | _ => none

/-- Modelled from the spec: the field-value lookup on the path of a leaf,
boundary step (section 4.2) followed by the container steps (section
4.3). -/
def get_model_value_path (m : ModelState) (childIdx : ℕ) (p : List ℕ) :
    Option Value :=
  match get_model_value m childIdx with
  | some v => get_value_path v p
  | none => none

/-- Decimal digit test for the embedded Python string parsers. -/
def isPyDigit (c : Char) : Bool := ('0' ≤ c) && (c ≤ '9')

/-- Value of a digit string. -/
def digitsToNat (cs : List Char) : ℕ :=
  cs.foldl (fun acc c => 10 * acc + (c.toNat - 48)) 0

/-- A sign character consumed from the front of a numeric string. -/
def splitSign : List Char → Bool × List Char
  | [] => (false, [])
  | c :: rest =>
    if c = '-' then (true, rest)
    else if c = '+' then (false, rest)
    else (false, c :: rest)

/-- Magnitude of an unsigned decimal string split at the dot, returned as
a numerator over a power of ten. -/
def decimalMagnitude (ip fp : List Char) : Option (ℤ × ℕ) :=
  if (!(ip.isEmpty && fp.isEmpty)) && ip.all isPyDigit && fp.all isPyDigit then
    some (((digitsToNat ip * 10 ^ fp.length + digitsToNat fp : ℕ) : ℤ),
      10 ^ fp.length)
  else none

/-- Python `float(s)` on a string, restricted to the grammar the scenarios
use: optional sign, digits, optional dot and fraction digits (Python
additionally accepts exponents, special words and surrounding blanks; no
claim depends on those). `none` is the ValueError Python raises. -/
def parseFloatString (s : String) : Option ℚ :=
  let (neg, cs) := splitSign s.data
  let ip := cs.takeWhile fun c => c != '.'
  let res :=
    match cs.dropWhile (fun c => c != '.') with
    | [] => decimalMagnitude ip []
    | _ :: fp => decimalMagnitude ip fp
  res.map fun p => mkRat (if neg then -p.1 else p.1) p.2

/-- Python `int(s)` on a string: optional sign and digits only. -/
def parseIntString (s : String) : Option ℤ :=
  let (neg, cs) := splitSign s.data
  if (!cs.isEmpty) && cs.all isPyDigit then
    some (if neg then -(digitsToNat cs : ℤ) else (digitsToNat cs : ℤ))
  else none

/-- Python truthiness, used by `bool(v)`. -/
def truthy : Value → Bool
  | .vFloat q => q != 0
  | .vInt n => n != 0
  | .vBool b => b
  | .vStr s => s != ""
  | .vList xs => !xs.isEmpty
  | .vDict es => !es.isEmpty

/-- Python `float(v)`: identity on floats, widening on ints and bools,
decimal parsing on strings, TypeError (`none`) on containers. -/
def floatCoerce : Value → Option Value
  | .vFloat q => some (.vFloat q)
  | .vInt n => some (.vFloat (mkRat n 1))
  | .vBool b => some (.vFloat (if b then 1 else 0))
  | .vStr s => (parseFloatString s).map .vFloat
  | _ => none

/-- Python `int(v)`: identity on ints, 0 or 1 on bools, truncation toward
zero on floats, digit parsing on strings, TypeError on containers. -/
def intCoerce : Value → Option Value
  | .vInt n => some (.vInt n)
  | .vBool b => some (.vInt (if b then 1 else 0))
  | .vFloat q => some (.vInt (Int.sign q.num * (q.num.natAbs / q.den : ℕ)))
  | .vStr s => (parseIntString s).map .vInt
  | _ => none

/-- Python `str(v)`: identity on strings; the rendering of the other
shapes is simplified (no claim depends on it), what matters is that
`str` never raises. -/
def strCoerce : Value → Option Value
  | .vStr s => some (.vStr s)
  | .vBool b => some (.vStr (if b then "True" else "False"))
  | .vInt n => some (.vStr (toString n))
  | .vFloat q => some (.vStr (toString q))
  | .vList _ => some (.vStr "<list>")
  | .vDict _ => some (.vStr "<dict>")

/-- `getattr(builtins, typ, _missing_interp)` inside
`FieldParameter._interpretValue`: the builtin parsers named by the four
primitive type names; `none` when no builtin parser of that name exists
(the registry of the spec). -/
def builtinCoerce : String → Option (Value → Option Value)
  | "float" => some floatCoerce
  | "int" => some intCoerce
  | "bool" => some fun v => some (.vBool (truthy v))
  | "str" => some strCoerce
  | _ => none

/-- `FieldParameter._interpretValue(v)`: the declared type name is read
from the options, falling back to the string type when it is empty, then
the builtin parser of that name is applied when it exists, otherwise the
fallback `_missing_interp` returns the raw value unchanged. -/
def interpretValue (typ : String) (v : Value) : Option Value :=
  let t := if typ = "" then "str" else typ
  match builtinCoerce t with
  | some interp => interp v
  | none => some v

/-- `FloatFieldParameter._interpretValue(v)`: `return float(v)`. -/
def floatField_interpretValue (v : Value) : Option Value := floatCoerce v

/-- Modelled from the spec: the per-edit state machine of section 4.5.
Interpretation of the raw external input happens inside the setValue of
the external widget layer, before any change signal is emitted, so it
strictly precedes validation; on interpretation failure the edit
terminates and the commit path is never entered. -/
def leaf_edit (interp : Value → Option Value) (schema : Schema)
    (m : ModelState) (fieldName : String) (raw : Value) :
    Option PyErr × ModelState × List Write :=
  match interp raw with
  | none => (some .interpretationError, m, [])
  | some data => handle_change_fun schema m fieldName (constChangeFun data)

/-- The node variants of a built tree (the dispatch of tree.py). -/
inductive NodeKind where
  | modelGroup
  | fieldParam
  | listField
  | dictField
  | listParam
  | dictParam
  | primParam
  | rootGroup
deriving DecidableEq

/-- `find_validator` dispatched over an ancestor chain (the node itself
first, then its parents up to the root group `ModelContainer` owns):
`ModelGroupParameter.find_validator` returns self; `FieldParameter`,
`ListFieldParameter`, `DictFieldParameter` and `DictParameter` return
`self.parent().find_validator()`; `ListParameter`, the primitive
parameters and the plain root group define no `find_validator`, so the
call raises AttributeError (`none`). -/
def find_validator : List NodeKind → Option (List NodeKind)
  | [] => none
  | .modelGroup :: rest => some (.modelGroup :: rest)
  | .fieldParam :: rest => find_validator rest
  | .listField :: rest => find_validator rest
  | .dictField :: rest => find_validator rest
  | .dictParam :: rest => find_validator rest
  | .listParam :: _ => none
  | .primParam :: _ => none
  | .rootGroup :: _ => none

/-- The suffix of a chain headed by the nearest model group. -/
def nearest_model_suffix : List NodeKind → Option (List NodeKind)
  | [] => none
  | .modelGroup :: rest => some (.modelGroup :: rest)
  | _ :: rest => nearest_model_suffix rest

/-- Which child kinds the tree builder of tree.py places under which
parent kind: a model group gets field parameters and list or dict field
groups (`find_field_delegate` skips direct model-typed fields); list and
dict groups get the results of `dispatch`, namely model groups, plain
list or dict groups and primitive parameters; the root group gets the
dispatched root. -/
def allowedChild : NodeKind → NodeKind → Bool
  | .modelGroup, .fieldParam => true
  | .modelGroup, .listField => true
  | .modelGroup, .dictField => true
  | .listField, .modelGroup => true
  | .listField, .listParam => true
  | .listField, .dictParam => true
  | .listField, .primParam => true
  | .dictField, .modelGroup => true
  | .dictField, .listParam => true
  | .dictField, .dictParam => true
  | .dictField, .primParam => true
  | .listParam, .modelGroup => true
  | .listParam, .listParam => true
  | .listParam, .dictParam => true
  | .listParam, .primParam => true
  | .dictParam, .modelGroup => true
  | .dictParam, .listParam => true
  | .dictParam, .dictParam => true
  | .dictParam, .primParam => true
  | .rootGroup, .modelGroup => true
  | .rootGroup, .listParam => true
  | .rootGroup, .dictParam => true
  | .rootGroup, .primParam => true
  | _, _ => false

/-- A node-to-root chain produced by the builder: every adjacent pair is
an allowed parent-child edge and the chain ends at the root group. -/
def chainValid : List NodeKind → Bool
  | [] => false
  | [k] => k == .rootGroup
  | k :: p :: rest => allowedChild p k && chainValid (p :: rest)

/-- The record schema the scenario theorems use, following the Car sample
model of the tests: a price bounded by `confloat(gt=1000, lt=10000)`, a
float list field `keycodes` and a float dict field `properties`. -/
def carSchema : Schema :=
  [("price", .fConFloat (some 1000) (some 10000)),
   ("keycodes", .fListFloat),
   ("properties", .fDictFloat)]

/-- A live record state for the scenarios: price 3000.1, keycodes
[1.0, 2.0, 3.0] and properties holding seats: 1.0. -/
def carState : ModelState :=
  ⟨[("price", .vFloat (mkRat 30001 10)),
    ("keycodes", .vList [.vFloat 1, .vFloat 2, .vFloat 3]),
    ("properties", .vDict [("seats", .vFloat 1)])]⟩

/-- Assigning a key and then looking it up yields the assigned value. -/
theorem lookupField_setField_self (l : List (String × Value)) (k : String)
    (v : Value) : lookupField (setField l k v) k = some v := by
  induction l with
  | nil => simp [setField, lookupField]
  | cons p rest ih =>
    obtain ⟨k1, v1⟩ := p
    by_cases h : k1 = k
    · simp [setField, h, lookupField]
    · simp [setField, h, lookupField, ih]

/-- Assigning a key leaves the lookup of every other key unchanged. -/
theorem lookupField_setField_ne (l : List (String × Value)) (k n : String)
    (v : Value) (h : n ≠ k) :
    lookupField (setField l k v) n = lookupField l n := by
  induction l with
  | nil =>
    simp only [setField, lookupField]
    rw [if_neg fun hh => h hh.symm]
  | cons p rest ih =>
    obtain ⟨k1, v1⟩ := p
    by_cases h1 : k1 = k
    · subst h1
      simp only [setField, if_pos rfl, lookupField]
      rw [if_neg fun hh => h hh.symm, if_neg fun hh => h hh.symm]
    · simp only [setField, if_neg h1, lookupField]
      by_cases h2 : k1 = n
      · rw [if_pos h2, if_pos h2]
      · rw [if_neg h2, if_neg h2, ih]

/-- The accepted values of a successful validation carry the schema keys in
schema order. -/
theorem validate_model_keys (schema : Schema) (d values : List (String × Value))
    (h : validate_model schema d = some values) :
    values.map Prod.fst = schema.map Prod.fst := by
  induction schema generalizing values with
  | nil =>
    simp only [validate_model, Option.some.injEq] at h
    subst h
    rfl
  | cons p rest ih =>
    obtain ⟨fn, ft⟩ := p
    simp only [validate_model, Option.pure_def, Option.bind_eq_bind,
      Option.bind_eq_some, Option.some.injEq] at h
    obtain ⟨w, hw, pv, hpv, vs, hvs, hv⟩ := h
    subst hv
    simp only [List.map_cons, List.cons.injEq]
    exact ⟨trivial, ih vs hvs⟩

/-- Successful validations of two candidate dictionaries that agree outside
one key yield accepted values that agree outside that key. -/
theorem validate_model_lookup_agree (schema : Schema)
    (d1 d2 v1 v2 : List (String × Value)) (name : String)
    (h1 : validate_model schema d1 = some v1)
    (h2 : validate_model schema d2 = some v2)
    (hag : ∀ n, n ≠ name → lookupField d1 n = lookupField d2 n) :
    ∀ n, n ≠ name → lookupField v1 n = lookupField v2 n := by
  induction schema generalizing v1 v2 with
  | nil =>
    simp only [validate_model, Option.some.injEq] at h1 h2
    subst h1
    subst h2
    intro n _
    rfl
  | cons p rest ih =>
    obtain ⟨fn, ft⟩ := p
    simp only [validate_model, Option.pure_def, Option.bind_eq_bind,
      Option.bind_eq_some, Option.some.injEq] at h1 h2
    obtain ⟨w1, hw1, pv1, hpv1, vs1, hvs1, hv1⟩ := h1
    obtain ⟨w2, hw2, pv2, hpv2, vs2, hvs2, hv2⟩ := h2
    subst hv1
    subst hv2
    intro n hn
    simp only [lookupField]
    by_cases hfn : fn = n
    · subst hfn
      have hd : lookupField d1 fn = lookupField d2 fn := hag fn hn
      rw [hw1, hw2] at hd
      simp only [Option.some.injEq] at hd
      subst hd
      rw [hpv1] at hpv2
      simp only [Option.some.injEq] at hpv2
      subst hpv2
      simp
    · rw [if_neg hfn, if_neg hfn]
      exact ih vs1 vs2 hvs1 hvs2 n hn

/-- With distinct keys, the entry found at a position is also the entry the
key-based lookup returns. -/
theorem lookupField_of_getElem (l : List (String × Value)) (i : ℕ)
    (k : String) (v : Value) (hnd : (l.map Prod.fst).Nodup)
    (hg : l[i]? = some (k, v)) : lookupField l k = some v := by
  induction l generalizing i with
  | nil => simp at hg
  | cons p rest ih =>
    obtain ⟨k1, v1⟩ := p
    simp only [List.map_cons, List.nodup_cons] at hnd
    cases i with
    | zero =>
      simp only [List.getElem?_cons_zero, Option.some.injEq] at hg
      obtain ⟨hk, hv⟩ := Prod.mk.inj hg
      subst hk
      subst hv
      simp [lookupField]
    | succ j =>
      simp only [List.getElem?_cons_succ] at hg
      have hk1 : k1 ≠ k := by
        intro he
        subst he
        exact hnd.1 (List.mem_map_of_mem Prod.fst (List.getElem?_mem hg))
      simp only [lookupField, if_neg hk1]
      exact ih j hnd.2 hg

/-- With distinct keys, assigning the key found at a position replaces
exactly that position. -/
theorem setField_getElem_self (l : List (String × Value)) (i : ℕ)
    (k : String) (v w : Value) (hnd : (l.map Prod.fst).Nodup)
    (hg : l[i]? = some (k, v)) :
    (setField l k w)[i]? = some (k, w) := by
  induction l generalizing i with
  | nil => simp at hg
  | cons p rest ih =>
    obtain ⟨k1, v1⟩ := p
    simp only [List.map_cons, List.nodup_cons] at hnd
    cases i with
    | zero =>
      simp only [List.getElem?_cons_zero, Option.some.injEq] at hg
      obtain ⟨hk, hv⟩ := Prod.mk.inj hg
      subst hk
      simp [setField]
    | succ j =>
      simp only [List.getElem?_cons_succ] at hg
      have hk1 : k1 ≠ k := by
        intro he
        subst he
        exact hnd.1 (List.mem_map_of_mem Prod.fst (List.getElem?_mem hg))
      simp only [setField, if_neg hk1, List.getElem?_cons_succ]
      exact ih j hnd.2 hg

/-- A position holding key `k` in the key list holds an entry keyed `k` in
the entry list. -/
theorem getElem_of_map_fst (l : List (String × Value)) (i : ℕ) (k : String)
    (hk : (l.map Prod.fst)[i]? = some k) :
    ∃ v, l[i]? = some (k, v) := by
  rw [List.getElem?_map] at hk
  cases hg : l[i]? with
  | none => rw [hg] at hk; simp at hk
  | some p =>
    obtain ⟨a, b⟩ := p
    rw [hg] at hk
    simp at hk
    subst hk
    exact ⟨b, rfl⟩

/-- Setting a list position below the length and reading it back. -/
theorem getElem_set_self (xs : List Value) (i : ℕ) (v : Value)
    (h : i < xs.length) : (xs.set i v)[i]? = some v := by
  induction xs generalizing i with
  | nil => simp at h
  | cons x rest ih =>
    cases i with
    | zero => simp [List.set]
    | succ j =>
      simp only [List.length_cons, Nat.succ_lt_succ_iff] at h
      simp only [List.set, List.getElem?_cons_succ]
      exact ih j h

/-- Applying the composed change function of a chain of list containers
with a constant leaf function, then reading back along the same path,
returns the leaf value. -/
theorem get_value_path_composeListPath (p : List ℕ) (newv v w : Value)
    (h : composeListPath p (constChangeFun newv) v = some w) :
    get_value_path w p = some newv := by
  induction p generalizing v w with
  | nil =>
    simp only [composeListPath, constChangeFun, Option.some.injEq] at h
    subst h
    rfl
  | cons i rest ih =>
    cases v with
    | vList xs =>
      simp only [composeListPath, listField_handle_compose] at h
      by_cases hi : i < xs.length
      · rw [dif_pos hi] at h
        cases hc : composeListPath rest (constChangeFun newv)
            (xs.get ⟨i, hi⟩) with
        | none => rw [hc] at h; simp at h
        | some w1 =>
          rw [hc] at h
          simp at h
          subst h
          simp only [get_value_path, getElem_set_self xs i w1 hi]
          exact ih _ _ hc
      · rw [dif_neg hi] at h; exact absurd h (by simp)
    | vFloat q => simp [composeListPath, listField_handle_compose] at h
    | vInt n => simp [composeListPath, listField_handle_compose] at h
    | vBool b => simp [composeListPath, listField_handle_compose] at h
    | vStr s => simp [composeListPath, listField_handle_compose] at h
    | vDict es => simp [composeListPath, listField_handle_compose] at h

/-- C1: the claim that propose_change never changes any observable field
of the live model fails on the code.  At the Car record with price
3000.1, proposing the accepted candidate 1420.2 returns True and leaves
the live price equal to 1420.2: check_and_set_options, called by
propose_change, replaces the whole field dictionary of the model with
the validated candidate values. -/
theorem C1_propose_mutates_on_accepted_candidate :
    (propose_change carSchema carState "price"
      (constChangeFun (.vFloat (mkRat 14202 10)))).1 = none ∧
    lookupField (propose_change carSchema carState "price"
      (constChangeFun (.vFloat (mkRat 14202 10)))).2.1.fields "price"
      = some (.vFloat (mkRat 14202 10)) ∧
    lookupField carState.fields "price" = some (.vFloat (mkRat 30001 10)) ∧
    mkRat 14202 10 ≠ mkRat 30001 10 :=
  ⟨rfl, rfl, rfl, by decide⟩

/-- C2: commit atomicity on rejection.  Whenever the candidate full-record
snapshot built by handle_change_fun fails validation, the call raises
the validation error, the live model state is unchanged and no write is
performed on it. -/
theorem C2_commit_atomic_on_rejection (schema : Schema) (m : ModelState)
    (fieldName : String) (f : ChangeFun) (fv newv : Value)
    (hget : lookupField m.fields fieldName = some fv)
    (hfun : f fv = some newv)
    (hval : validate_model schema (setField m.fields fieldName newv) = none) :
    handle_change_fun schema m fieldName f
      = (some .validationError, m, []) := by
  simp only [handle_change_fun, hget, hfun, check_and_set_options, hval]

theorem C2_commit_atomic_on_rejection_witness :
    handle_change_fun carSchema carState "price" (constChangeFun (.vFloat 420))
      = (some .validationError, carState, []) :=
  C2_commit_atomic_on_rejection carSchema carState "price"
    (constChangeFun (.vFloat 420)) (.vFloat (mkRat 30001 10)) (.vFloat 420)
    rfl rfl rfl

/-- C3, counterexample: an accepted commit is not a single field
assignment; the write trace of handle_change_fun at an accepted edit
holds two writes (the full dictionary replacement performed by
check_and_set_options followed by the setattr), not one. -/
theorem C3_counterexample_full_record_write :
    (handle_change_fun carSchema carState "price"
      (constChangeFun (.vFloat (mkRat 14202 10)))).2.2
      ≠ [Write.setAttr "price" (.vFloat (mkRat 14202 10))] := by
  intro h
  have h2 : (2 : ℕ) = 1 := congrArg List.length h
  exact absurd h2 (by decide)

/-- C3, amended: on an accepted edit handle_change_fun performs a full
replacement of the field dictionary with the validated snapshot and then
one single field assignment of the new value; the resulting live state
carries the new value at the edited field, and every other field of a
record that re-validates to itself keeps its previous value. -/
theorem C3_amended_commit_effect (schema : Schema) (m : ModelState)
    (name : String) (f : ChangeFun) (fv newv : Value)
    (values : List (String × Value))
    (hget : lookupField m.fields name = some fv)
    (hfun : f fv = some newv)
    (hval : validate_model schema (setField m.fields name newv) = some values)
    (hself : validate_model schema m.fields = some m.fields) :
    handle_change_fun schema m name f
      = (none, ⟨setField values name newv⟩,
          [.setDict values, .setAttr name newv]) ∧
    lookupField (setField values name newv) name = some newv ∧
    (∀ n, n ≠ name →
      lookupField (setField values name newv) n = lookupField m.fields n) := by
  refine ⟨?_, lookupField_setField_self values name newv, ?_⟩
  · simp only [handle_change_fun, hget, hfun, check_and_set_options, hval,
      List.singleton_append]
  · intro n hn
    rw [lookupField_setField_ne values name n newv hn]
    exact validate_model_lookup_agree schema _ _ values m.fields name hval hself
      (fun n2 hn2 => lookupField_setField_ne m.fields name n2 newv hn2) n hn

theorem C3_amended_commit_effect_witness :
    handle_change_fun carSchema carState "price"
      (constChangeFun (.vFloat (mkRat 14202 10)))
      = (none,
          ⟨setField (setField carState.fields "price"
            (.vFloat (mkRat 14202 10))) "price" (.vFloat (mkRat 14202 10))⟩,
          [.setDict (setField carState.fields "price"
            (.vFloat (mkRat 14202 10))),
           .setAttr "price" (.vFloat (mkRat 14202 10))]) ∧
    lookupField (setField (setField carState.fields "price"
      (.vFloat (mkRat 14202 10))) "price" (.vFloat (mkRat 14202 10))) "price"
      = some (.vFloat (mkRat 14202 10)) ∧
    lookupField (setField (setField carState.fields "price"
      (.vFloat (mkRat 14202 10))) "price" (.vFloat (mkRat 14202 10))) "keycodes"
      = lookupField carState.fields "keycodes" :=
  have h := C3_amended_commit_effect carSchema carState "price"
    (constChangeFun (.vFloat (mkRat 14202 10))) (.vFloat (mkRat 30001 10))
    (.vFloat (mkRat 14202 10))
    (setField carState.fields "price" (.vFloat (mkRat 14202 10)))
    rfl rfl rfl rfl
  ⟨h.1, h.2.1, h.2.2 "keycodes" (by decide)⟩

/-- C4: the dict element edit scenario fails on the code.  The change
function composed by DictFieldParameter.handle_change_fun returns the
transformed element (4.0) without writing it back into the dictionary,
the candidate record therefore holds a float where a dict is declared,
validation rejects it, handle_change_fun raises and the live properties
dictionary is unchanged; the spec expects acceptance with seats updated
to 4.0. -/
theorem C4_dict_edit_rejected_by_validation :
    dictField_handle_change_fun carSchema carState "properties" 0
      (constChangeFun (.vFloat 4)) = (some .validationError, carState, []) ∧
    dictField_handle_compose 0 (constChangeFun (.vFloat 4))
      (.vDict [("seats", .vFloat 1)]) = some (.vFloat 4) :=
  ⟨rfl, rfl⟩

/-- C5: the list element edit scenario.  Editing keycodes index 1 of the
Car record to 9.9 through the list container and the boundary is
accepted, the live keycodes list becomes [1.0, 9.9, 3.0] and the price
and properties fields keep their previous values. -/
theorem C5_list_element_edit_scenario :
    (listField_handle_change_fun carSchema carState "keycodes" 1
      (constChangeFun (.vFloat (mkRat 99 10)))).1 = none ∧
    lookupField (listField_handle_change_fun carSchema carState "keycodes" 1
      (constChangeFun (.vFloat (mkRat 99 10)))).2.1.fields "keycodes"
      = some (.vList [.vFloat 1, .vFloat (mkRat 99 10), .vFloat 3]) ∧
    lookupField (listField_handle_change_fun carSchema carState "keycodes" 1
      (constChangeFun (.vFloat (mkRat 99 10)))).2.1.fields "price"
      = lookupField carState.fields "price" ∧
    lookupField (listField_handle_change_fun carSchema carState "keycodes" 1
      (constChangeFun (.vFloat (mkRat 99 10)))).2.1.fields "properties"
      = lookupField carState.fields "properties" :=
  ⟨rfl, rfl, rfl, rfl⟩

/-- C6, counterexample: the dry run does touch a live collection.  A
propose through the list container with an accepted candidate changes
the live keycodes field of the record from [1.0, 2.0, 3.0] to
[1.0, 9.9, 3.0]. -/
theorem C6_counterexample_propose_changes_live_list :
    (listField_propose_change carSchema carState "keycodes" 1
      (constChangeFun (.vFloat (mkRat 99 10)))).1 = none ∧
    lookupField (listField_propose_change carSchema carState "keycodes" 1
      (constChangeFun (.vFloat (mkRat 99 10)))).2.1.fields "keycodes"
      = some (.vList [.vFloat 1, .vFloat (mkRat 99 10), .vFloat 3]) ∧
    lookupField carState.fields "keycodes"
      = some (.vList [.vFloat 1, .vFloat 2, .vFloat 3]) ∧
    Value.vList [.vFloat 1, .vFloat (mkRat 99 10), .vFloat 3]
      ≠ Value.vList [.vFloat 1, .vFloat 2, .vFloat 3] := by
  refine ⟨rfl, rfl, rfl, ?_⟩
  intro h
  simp only [Value.vList.injEq, List.cons.injEq, Value.vFloat.injEq] at h
  exact absurd h.2.1 (by decide)

/-- C6, amended: there is no copy flag anywhere in the propose path.  The
list container composes for propose the same in-place updating change
function it composes for commit; the boundary applies it to a deep copy
of the edited field, so the application itself mutates nothing, and the
outcome of propose_change is: live state untouched when validation
rejects the candidate, live fields replaced by the validated snapshot
when it accepts. -/
theorem C6_amended_propose_behaviour (schema : Schema) (m : ModelState)
    (name : String) (i : ℕ) (f : ChangeFun) (fv newv : Value)
    (hget : lookupField m.fields name = some fv)
    (hfun : listField_propose_compose i f fv = some newv) :
    listField_propose_compose i f = listField_handle_compose i f ∧
    (validate_model schema (setField m.fields name newv) = none →
      listField_propose_change schema m name i f
        = (some .validationError, m, [])) ∧
    (∀ values,
      validate_model schema (setField m.fields name newv) = some values →
      listField_propose_change schema m name i f
        = (none, ⟨values⟩, [.setDict values])) := by
  refine ⟨rfl, ?_, ?_⟩
  · intro hval
    simp only [listField_propose_change, propose_change, hget, hfun,
      check_and_set_options, hval]
  · intro values hval
    simp only [listField_propose_change, propose_change, hget, hfun,
      check_and_set_options, hval]

theorem C6_amended_propose_behaviour_witness :
    listField_propose_change carSchema carState "keycodes" 1
      (constChangeFun (.vStr "x")) = (some .validationError, carState, []) :=
  (C6_amended_propose_behaviour carSchema carState "keycodes" 1
    (constChangeFun (.vStr "x"))
    (.vList [.vFloat 1, .vFloat 2, .vFloat 3])
    (.vList [.vFloat 1, .vStr "x", .vFloat 3]) rfl rfl).2.1 rfl

/-- C7, counterexample: when no builtin parser is registered for the
declared type name, _interpretValue does not fail; the fallback
_missing_interp returns the raw value unchanged. -/
theorem C7_counterexample_missing_parser_returns_raw :
    builtinCoerce "Decimal" = none ∧
    interpretValue "Decimal" (.vStr "abc") = some (.vStr "abc") :=
  ⟨rfl, rfl⟩

/-- C7, amended: interpretation fails only when a registered builtin
parser cannot coerce the raw value; with no parser registered for a
nonempty declared type name the raw value passes through unchanged.  On
a float leaf, a non-numeric raw input fails interpretation before any
validation, no commit is attempted (the write trace is empty) and the
live model is unchanged. -/
theorem C7_amended_interpretation (schema : Schema) (m : ModelState)
    (name typ : String) (v raw : Value)
    (htyp : ¬typ = "")
    (hmiss : builtinCoerce typ = none)
    (hbad : floatCoerce raw = none) :
    interpretValue typ v = some v ∧
    leaf_edit floatField_interpretValue schema m name raw
      = (some .interpretationError, m, []) := by
  constructor
  · simp only [interpretValue, if_neg htyp, hmiss]
  · simp only [leaf_edit, floatField_interpretValue, hbad]

theorem C7_amended_interpretation_witness :
    interpretValue "Decimal" (.vStr "x") = some (.vStr "x") ∧
    leaf_edit floatField_interpretValue carSchema carState "price"
      (.vStr "abc") = (some .interpretationError, carState, []) :=
  C7_amended_interpretation carSchema carState "price" "Decimal" (.vStr "x")
    (.vStr "abc") (by decide) rfl rfl

/-- C9, counterexample: dict key resolution is not uniform at call time.
The commit composition resolves the key from the live dictionary by the
structural child index, but the propose composition looks up the cached
build-time parameter name (which the builder forms as field[key]), so at
the same live dictionary the commit composition reaches the element
while the propose composition raises a KeyError, and the whole propose
call returns the exception with the live record unchanged. -/
theorem C9_counterexample_dict_propose_uses_cached_name :
    dictField_handle_compose 0 (constChangeFun (.vFloat 4))
      (.vDict [("seats", .vFloat 1)]) = some (.vFloat 4) ∧
    dictField_propose_compose "properties[seats]" (constChangeFun (.vFloat 4))
      (.vDict [("seats", .vFloat 1)]) = none ∧
    dictField_propose_change carSchema carState "properties"
      "properties[seats]" (constChangeFun (.vFloat 4))
      = (some .runtimeError, carState, []) :=
  ⟨rfl, rfl, rfl⟩

/-- C9, amended: list containers (commit and propose alike) and the dict
commit path resolve the child position inside the live collection at
call time, so they target the element currently at that position; the
dict propose path instead resolves by the cached parameter name. -/
theorem C9_amended_call_time_resolution (xs : List Value)
    (es : List (String × Value)) (i : ℕ) (f : ChangeFun) (key : String)
    (hx : i < xs.length) (he : i < es.length)
    (hnd : (es.map Prod.fst).Nodup) :
    listField_handle_compose i f (.vList xs)
      = (f (xs.get ⟨i, hx⟩)).map (fun v => Value.vList (xs.set i v)) ∧
    listField_propose_compose i f (.vList xs)
      = (f (xs.get ⟨i, hx⟩)).map (fun v => Value.vList (xs.set i v)) ∧
    dictField_handle_compose i f (.vDict es) = f (es.get ⟨i, he⟩).2 ∧
    dictField_propose_compose key f (.vDict es)
      = (lookupField es key).bind f := by
  refine ⟨?_, ?_, ?_, ?_⟩
  · simp only [listField_handle_compose, dif_pos hx]
  · simp only [listField_propose_compose, dif_pos hx]
  · simp only [dictField_handle_compose, dif_pos he]
    have hl : lookupField es (es.get ⟨i, he⟩).1 = some (es.get ⟨i, he⟩).2 := by
      apply lookupField_of_getElem es i _ _ hnd
      simp [List.getElem?_eq_getElem he, List.get_eq_getElem]
    rw [hl]
  · simp only [dictField_propose_compose]
    cases lookupField es key <;> rfl

theorem C9_amended_call_time_resolution_witness :
    listField_handle_compose 0 (constChangeFun (.vFloat 5))
      (.vList [.vFloat 1, .vFloat 2]) = some (.vList [.vFloat 5, .vFloat 2]) ∧
    dictField_propose_compose "seats[0]" (constChangeFun (.vFloat 5))
      (.vDict [("seats", .vFloat 1)]) = none := by
  have h := C9_amended_call_time_resolution [.vFloat 1, .vFloat 2]
    [("seats", .vFloat 1)] 0 (constChangeFun (.vFloat 5)) "seats[0]"
    (by decide) (by decide) (by decide)
  exact ⟨h.1.trans rfl, h.2.2.2.trans rfl⟩

/-- C10: find_validator on any built-tree node that is a field parameter,
a list-field group, a dict-field group or a model group returns the
nearest model group of its ancestor chain (itself for a model group),
never a container or leaf node. -/
theorem C10_find_validator_nearest_boundary (k : NodeKind)
    (rest : List NodeKind)
    (hvalid : chainValid (k :: rest) = true)
    (hk : k = .fieldParam ∨ k = .listField ∨ k = .dictField
      ∨ k = .modelGroup) :
    find_validator (k :: rest) = nearest_model_suffix (k :: rest) ∧
    ∃ s, find_validator (k :: rest) = some (NodeKind.modelGroup :: s) := by
  have hpar : (k = .fieldParam ∨ k = .listField ∨ k = .dictField) →
      ∃ rest2, rest = NodeKind.modelGroup :: rest2 := by
    intro hk2
    cases rest with
    | nil =>
      exfalso
      rcases hk2 with h | h | h <;> subst h <;> simp [chainValid] at hvalid
    | cons p rest2 =>
      refine ⟨rest2, ?_⟩
      have hallow : allowedChild p k = true := by
        simp only [chainValid, Bool.and_eq_true] at hvalid
        exact hvalid.1
      rcases hk2 with h | h | h <;> subst h <;> cases p <;>
        first
        | rfl
        | simp [allowedChild] at hallow
  rcases hk with h | h | h | h
  · obtain ⟨rest2, hr⟩ := hpar (Or.inl h)
    subst h
    subst hr
    exact ⟨rfl, rest2, rfl⟩
  · obtain ⟨rest2, hr⟩ := hpar (Or.inr (Or.inl h))
    subst h
    subst hr
    exact ⟨rfl, rest2, rfl⟩
  · obtain ⟨rest2, hr⟩ := hpar (Or.inr (Or.inr h))
    subst h
    subst hr
    exact ⟨rfl, rest2, rfl⟩
  · subst h
    exact ⟨rfl, rest, rfl⟩

/-- C8: round trip.  For a leaf below a chain of list containers whose
new typed value yields a candidate the owning record accepts, after
handle_change_fun succeeds the field-value lookup on the path of the
leaf (boundary structural index, then container positions) returns
exactly the committed value. -/
theorem C8_round_trip (schema : Schema) (m : ModelState) (fi : ℕ)
    (name : String) (fv0 : Value) (p : List ℕ) (newv newvTop : Value)
    (values : List (String × Value))
    (hkeys : m.fields.map Prod.fst = schema.map Prod.fst)
    (hnd : (schema.map Prod.fst).Nodup)
    (hfi : m.fields[fi]? = some (name, fv0))
    (hcomp : composeListPath p (constChangeFun newv) fv0 = some newvTop)
    (hval : validate_model schema (setField m.fields name newvTop)
      = some values) :
    (handle_change_fun schema m name
      (composeListPath p (constChangeFun newv))).1 = none ∧
    get_model_value_path
      (handle_change_fun schema m name
        (composeListPath p (constChangeFun newv))).2.1 fi p = some newv := by
  have hndm : (m.fields.map Prod.fst).Nodup := hkeys ▸ hnd
  have hget : lookupField m.fields name = some fv0 :=
    lookupField_of_getElem m.fields fi name fv0 hndm hfi
  have hres : handle_change_fun schema m name
      (composeListPath p (constChangeFun newv))
      = (none, ⟨setField values name newvTop⟩,
          [.setDict values, .setAttr name newvTop]) := by
    simp only [handle_change_fun, hget, hcomp, check_and_set_options, hval,
      List.singleton_append]
  rw [hres]
  refine ⟨rfl, ?_⟩
  have hkeysv : values.map Prod.fst = schema.map Prod.fst :=
    validate_model_keys schema _ values hval
  have hnamefi : (values.map Prod.fst)[fi]? = some name := by
    rw [hkeysv, ← hkeys, List.getElem?_map, hfi]
    rfl
  obtain ⟨v0, hv0⟩ := getElem_of_map_fst values fi name hnamefi
  have hndv : (values.map Prod.fst).Nodup := hkeysv ▸ hnd
  have hset : (setField values name newvTop)[fi]? = some (name, newvTop) :=
    setField_getElem_self values fi name v0 newvTop hndv hv0
  simp only [get_model_value_path, get_model_value, hset, Option.map_some]
  exact get_value_path_composeListPath p newv fv0 newvTop hcomp

theorem C8_round_trip_witness :
    (handle_change_fun carSchema carState "keycodes"
      (composeListPath [1] (constChangeFun (.vFloat (mkRat 99 10))))).1
      = none ∧
    get_model_value_path
      (handle_change_fun carSchema carState "keycodes"
        (composeListPath [1] (constChangeFun (.vFloat (mkRat 99 10))))).2.1
      1 [1] = some (.vFloat (mkRat 99 10)) :=
  C8_round_trip carSchema carState 1 "keycodes"
    (.vList [.vFloat 1, .vFloat 2, .vFloat 3]) [1]
    (.vFloat (mkRat 99 10))
    (.vList [.vFloat 1, .vFloat (mkRat 99 10), .vFloat 3])
    (setField carState.fields "keycodes"
      (.vList [.vFloat 1, .vFloat (mkRat 99 10), .vFloat 3]))
    rfl (by decide) rfl rfl rfl

theorem C10_find_validator_nearest_boundary_witness :
    find_validator
        [.fieldParam, .modelGroup, .listField, .modelGroup, .rootGroup]
      = nearest_model_suffix
        [.fieldParam, .modelGroup, .listField, .modelGroup, .rootGroup] ∧
    ∃ s, find_validator
        [.fieldParam, .modelGroup, .listField, .modelGroup, .rootGroup]
      = some (NodeKind.modelGroup :: s) :=
  C10_find_validator_nearest_boundary .fieldParam
    [.modelGroup, .listField, .modelGroup, .rootGroup] (by decide)
    (Or.inl rfl)

end Optiblocks
